import Mathlib

/-!
Shallow embedding of the fretboard position generator and the multi-strategy
fingering optimizer of the sid-fret repository
(src/fingering/position.rs, src/fingering/scoring.rs,
src/instrument/fingering/algorithm.rs, src/instrument/tuning.rs,
src/instrument/fretboard.rs), together with theorems settling the frozen
claims about its specification.

Modelling conventions:
* Rust `u8`/`u32` values are modelled as `Nat`; all arithmetic on them in the
  embedded code is guarded so that no overflow or underflow is reachable
  (frets are at most 24, pitches with candidates are at most 39), hence plain
  `Nat` arithmetic agrees with the machine arithmetic on every reachable value.
* Rust `i32` values (tuning offsets, distance computations) are modelled as
  `Int`; `.abs() as u32` becomes `Int.natAbs`.
* Rust `f32` scores are modelled as `ℚ`: every weight preset is a small
  decimal and all score computations in the claims involve only values exactly
  representable, so rational arithmetic agrees with the float arithmetic there.
* A Rust panic (an `unwrap` of `None`, reachable exactly when the position
  generator yields no candidate) is modelled by `Option`: a strategy returns
  `none` where the code panics.
* Rust `Iterator::min_by` / `min_by_key` return the first element attaining
  the minimum; `minByFirst` below reproduces that tie-breaking exactly.
-/

namespace SidFret

/-- Embedding of `FretPosition` (src/fingering/position.rs): string number
(1 = G string .. 4 = E string), fret number (0 = open), optional finger. -/
structure FretPosition where
  string : Nat
  fret : Nat
  finger : Option Nat
deriving DecidableEq, Repr

instance : Inhabited FretPosition := ⟨⟨0, 0, none⟩⟩

/-- Embedding of `FretPosition::new`: finger is left unset. -/
def FretPosition.new (string fret : Nat) : FretPosition :=
  ⟨string, fret, none⟩

/-- Embedding of `FretPosition::position`: the left-hand zone of a fret,
`0` for an open string, otherwise `((fret - 1) / 4) * 4 + 1`. -/
def FretPosition.position (p : FretPosition) : Nat :=
  if p.fret = 0 then 0 else ((p.fret - 1) / 4) * 4 + 1

/-- The open-string offset table used by `FretPosition::absolute_pitch`
(src/fingering/position.rs): string 1 = G = 15, 2 = D = 10, 3 = A = 5,
4 = E = 0, anything else 0. -/
def stringOffset (s : Nat) : Nat :=
  match s with
  | 1 => 15
  | 2 => 10
  | 3 => 5
  | 4 => 0
  | _ => 0

/-- Embedding of `FretPosition::absolute_pitch`: open-string offset plus fret. -/
def FretPosition.absolute_pitch (p : FretPosition) : Nat :=
  stringOffset p.string + p.fret

/-- Embedding of `FingeringPattern` (src/fingering/position.rs); the `f32`
score is modelled as a rational. -/
structure FingeringPattern where
  positions : List FretPosition
  score : ℚ
  algorithm : String
deriving DecidableEq, Repr

/-- Embedding of `FingeringPattern::new`: score starts at `0.0`. -/
def FingeringPattern.new (positions : List FretPosition) (algorithm : String) :
    FingeringPattern :=
  ⟨positions, 0, algorithm⟩

/-- The per-pair contribution of `FingeringPattern::total_movement`: same
string contributes the fret distance, a string change contributes the fixed
penalty `1` plus half the fret distance (integer division). -/
def movementStep (a b : FretPosition) : Nat :=
  if a.string = b.string then ((a.fret : ℤ) - (b.fret : ℤ)).natAbs
  else 1 + ((a.fret : ℤ) - (b.fret : ℤ)).natAbs / 2

/-- The loop of `FingeringPattern::total_movement` over consecutive pairs. -/
def totalMovementGo : List FretPosition → Nat
  | a :: b :: rest => movementStep a b + totalMovementGo (b :: rest)
  | _ => 0

/-- Embedding of `FingeringPattern::total_movement`. -/
def FingeringPattern.total_movement (pat : FingeringPattern) : Nat :=
  totalMovementGo pat.positions

/-- The loop of `FingeringPattern::position_changes`: count consecutive pairs
with differing zones, ignoring any pair in which either zone is `0`. -/
def positionChangesGo : List FretPosition → Nat
  | a :: b :: rest =>
    (if a.position ≠ b.position ∧ b.position ≠ 0 ∧ a.position ≠ 0 then 1 else 0)
      + positionChangesGo (b :: rest)
  | _ => 0

/-- Embedding of `FingeringPattern::position_changes`. -/
def FingeringPattern.position_changes (pat : FingeringPattern) : Nat :=
  positionChangesGo pat.positions

/-- Embedding of `FingeringPattern::open_string_count`: number of positions
with fret `0`. -/
def FingeringPattern.open_string_count (pat : FingeringPattern) : Nat :=
  (pat.positions.filter (fun p => p.fret == 0)).length

/-- The loop of `FingeringPattern::string_changes`: count consecutive pairs on
different strings. -/
def stringChangesGo : List FretPosition → Nat
  | a :: b :: rest =>
    (if a.string ≠ b.string then 1 else 0) + stringChangesGo (b :: rest)
  | _ => 0

/-- Embedding of `FingeringPattern::string_changes`. -/
def FingeringPattern.string_changes (pat : FingeringPattern) : Nat :=
  stringChangesGo pat.positions

/-- Embedding of `AlgorithmWeights` (src/fingering/scoring.rs); `f32` weights
are modelled as rationals (every preset weight is an exact decimal). -/
structure AlgorithmWeights where
  movement_weight : ℚ
  position_change_weight : ℚ
  open_string_weight : ℚ
  string_change_weight : ℚ
deriving DecidableEq, Repr

/-- Embedding of `AlgorithmWeights::default`, i.e. the balanced preset. -/
def AlgorithmWeights.default : AlgorithmWeights :=
  ⟨1, 2, -1, 1/2⟩

/-- Embedding of `AlgorithmWeights::shortest`. -/
def AlgorithmWeights.shortest : AlgorithmWeights :=
  ⟨10, 1, 0, 1/2⟩

/-- Embedding of `AlgorithmWeights::position_stable`. -/
def AlgorithmWeights.position_stable : AlgorithmWeights :=
  ⟨1, 10, 0, 1/2⟩

/-- Embedding of `AlgorithmWeights::open_string`. -/
def AlgorithmWeights.open_string : AlgorithmWeights :=
  ⟨1, 2, -5, 3/10⟩

/-- Embedding of `AlgorithmWeights::string_priority`. -/
def AlgorithmWeights.string_priority : AlgorithmWeights :=
  ⟨1/2, 1, 0, -1⟩

/-- Embedding of `AlgorithmWeights::balanced`, which is `default`. -/
def AlgorithmWeights.balanced : AlgorithmWeights :=
  AlgorithmWeights.default

/-- Embedding of `AlgorithmWeights::calculate_score`: the weighted sum of the
four pattern metrics. -/
def AlgorithmWeights.calculate_score (w : AlgorithmWeights)
    (pat : FingeringPattern) : ℚ :=
  (pat.total_movement : ℚ) * w.movement_weight
    + (pat.position_changes : ℚ) * w.position_change_weight
    + (pat.open_string_count : ℚ) * w.open_string_weight
    + (pat.string_changes : ℚ) * w.string_change_weight

/-- Embedding of `generate_all_positions`
(src/instrument/fingering/algorithm.rs): the hardcoded 4-string bass
candidate generator; one candidate per string whose range contains the pitch,
pushed in string order 4, 3, 2, 1. -/
def generate_all_positions (pitch : Nat) : List FretPosition :=
  (if pitch ≤ 24 then [FretPosition.new 4 pitch] else [])
    ++ (if 5 ≤ pitch ∧ pitch ≤ 29 then [FretPosition.new 3 (pitch - 5)] else [])
    ++ (if 10 ≤ pitch ∧ pitch ≤ 34 then [FretPosition.new 2 (pitch - 10)] else [])
    ++ (if 15 ≤ pitch ∧ pitch ≤ 39 then [FretPosition.new 1 (pitch - 15)] else [])

/-- Strict lexicographic comparison on the `(i32, i32)` sort keys used by the
`min_by_key` calls of the algorithms (all reachable key values are
non-negative, so `Nat` pairs model them exactly). -/
def lexLt (a b : Nat × Nat) : Bool :=
  a.1 < b.1 || (a.1 == b.1 && a.2 < b.2)

/-- Rust `Iterator::min_by_key` over a list: the first element attaining the
minimal key, `none` on an empty list. -/
def minByFirst {α : Type} (key : α → Nat × Nat) : List α → Option α
  | [] => none
  | x :: xs =>
    match minByFirst key xs with
    | none => some x
    | some y => some (if lexLt (key y) (key x) then y else x)

/-- The `(prev.fret - p.fret).abs()` distance of the algorithms. -/
def fretDist (prev p : FretPosition) : Nat :=
  ((prev.fret : ℤ) - (p.fret : ℤ)).natAbs

/-- The `(prev.string - p.string).abs()` distance of the algorithms. -/
def stringDist (prev p : FretPosition) : Nat :=
  ((prev.string : ℤ) - (p.string : ℤ)).natAbs

/-- Sort key for the first pitch of `calculate_shortest_path`: lowest fret,
then lowest string number. -/
def shortestFirstKey (p : FretPosition) : Nat × Nat :=
  (p.fret, p.string)

/-- Sort key for subsequent pitches of `calculate_shortest_path`: fret
distance plus twice the string distance from the previously chosen position. -/
def shortestNextKey (prev p : FretPosition) : Nat × Nat :=
  (fretDist prev p + stringDist prev p * 2, 0)

/-- The loop of `calculate_shortest_path` after the first pitch, carrying the
previously selected position; `none` models the `unwrap` panic on an empty
candidate list. -/
def shortestGo (prev : FretPosition) : List Nat → Option (List FretPosition)
  | [] => some []
  | p :: ps =>
    match minByFirst (shortestNextKey prev) (generate_all_positions p) with
    | none => none
    | some best =>
      match shortestGo best ps with
      | none => none
      | some rest => some (best :: rest)

/-- Embedding of `calculate_shortest_path`. -/
def calculate_shortest_path (pitches : List Nat) : Option FingeringPattern :=
  match pitches with
  | [] => some (FingeringPattern.new [] "shortest")
  | p :: ps =>
    match minByFirst shortestFirstKey (generate_all_positions p) with
    | none => none
    | some first =>
      match shortestGo first ps with
      | none => none
      | some rest =>
        let pat := FingeringPattern.new (first :: rest) "shortest"
        some { pat with score := AlgorithmWeights.shortest.calculate_score pat }

/-- Sort key of `calculate_position_stable`: distance of the candidate's zone
from the base position, then fret number. -/
def positionStableKey (base : Nat) (p : FretPosition) : Nat × Nat :=
  (((base : ℤ) - (p.position : ℤ)).natAbs, p.fret)

/-- The loop of `calculate_position_stable`: each pitch is chosen
independently by `positionStableKey`. -/
def positionStableGo (base : Nat) : List Nat → Option (List FretPosition)
  | [] => some []
  | p :: ps =>
    match minByFirst (positionStableKey base) (generate_all_positions p) with
    | none => none
    | some best =>
      match positionStableGo base ps with
      | none => none
      | some rest => some (best :: rest)

/-- Embedding of `calculate_position_stable`. -/
def calculate_position_stable (pitches : List Nat) (base_position : Nat) :
    Option FingeringPattern :=
  match pitches with
  | [] => some (FingeringPattern.new [] "position-stable")
  | _ :: _ =>
    match positionStableGo base_position pitches with
    | none => none
    | some selected =>
      let pat := FingeringPattern.new selected "position-stable"
      some { pat with
              score := AlgorithmWeights.position_stable.calculate_score pat }

/-- Sort key of `calculate_open_string`: open strings first, then ascending
fret. -/
def openStringKey (p : FretPosition) : Nat × Nat :=
  if p.fret = 0 then (0, 0) else (1, p.fret)

/-- The loop of `calculate_open_string`: each pitch is chosen independently by
`openStringKey`. -/
def openStringGo : List Nat → Option (List FretPosition)
  | [] => some []
  | p :: ps =>
    match minByFirst openStringKey (generate_all_positions p) with
    | none => none
    | some best =>
      match openStringGo ps with
      | none => none
      | some rest => some (best :: rest)

/-- Embedding of `calculate_open_string`. -/
def calculate_open_string (pitches : List Nat) : Option FingeringPattern :=
  match pitches with
  | [] => some (FingeringPattern.new [] "open-string")
  | _ :: _ =>
    match openStringGo pitches with
    | none => none
    | some selected =>
      let pat := FingeringPattern.new selected "open-string"
      some { pat with
              score := AlgorithmWeights.open_string.calculate_score pat }

/-- Sort key for the first pitch of `calculate_string_priority`: distance of
the string from string 3 (the A string), then fret. -/
def stringPriorityFirstKey (p : FretPosition) : Nat × Nat :=
  (((p.string : ℤ) - 3).natAbs, p.fret)

/-- Sort key for subsequent pitches of `calculate_string_priority`: a
different string costs `(0, string distance)`, the same string costs
`(2 * fret distance, 0)`. -/
def stringPriorityNextKey (prev p : FretPosition) : Nat × Nat :=
  if p.string ≠ prev.string then (0, stringDist prev p)
  else (fretDist prev p * 2, 0)

/-- The loop of `calculate_string_priority` after the first pitch, carrying
the previously selected position. -/
def stringPriorityGo (prev : FretPosition) :
    List Nat → Option (List FretPosition)
  | [] => some []
  | p :: ps =>
    match minByFirst (stringPriorityNextKey prev) (generate_all_positions p) with
    | none => none
    | some best =>
      match stringPriorityGo best ps with
      | none => none
      | some rest => some (best :: rest)

/-- Embedding of `calculate_string_priority`. -/
def calculate_string_priority (pitches : List Nat) : Option FingeringPattern :=
  match pitches with
  | [] => some (FingeringPattern.new [] "string-priority")
  | p :: ps =>
    match minByFirst stringPriorityFirstKey (generate_all_positions p) with
    | none => none
    | some first =>
      match stringPriorityGo first ps with
      | none => none
      | some rest =>
        let pat := FingeringPattern.new (first :: rest) "string-priority"
        some { pat with
                score := AlgorithmWeights.string_priority.calculate_score pat }

/-- Rust `Iterator::min_by` over patterns compared by score under the given
weights (the `partial_cmp ... unwrap_or(Equal)` comparison; all modelled
scores are rationals, so the comparison is total): first minimum wins. -/
def minByScoreFirst (w : AlgorithmWeights) :
    List FingeringPattern → Option FingeringPattern
  | [] => none
  | x :: xs =>
    match minByScoreFirst w xs with
    | none => some x
    | some y =>
      some (if w.calculate_score y < w.calculate_score x then y else x)

/-- Embedding of `calculate_balanced`: run shortest, position-stable (base 5)
and open-string, pick the pattern with the lowest balanced-weight score,
retag it "balanced" and recompute its score under the balanced weights. -/
def calculate_balanced (pitches : List Nat) : Option FingeringPattern :=
  match pitches with
  | [] => some (FingeringPattern.new [] "balanced")
  | _ :: _ =>
    match calculate_shortest_path pitches,
        calculate_position_stable pitches 5,
        calculate_open_string pitches with
    | some s, some p, some o =>
      match minByScoreFirst AlgorithmWeights.balanced [s, p, o] with
      | none => none
      | some best =>
        some { best with
                algorithm := "balanced",
                score := AlgorithmWeights.balanced.calculate_score best }
    | _, _, _ => none

/-- Embedding of `FingeringMode`
(src/instrument/fingering/algorithm.rs). -/
inductive FingeringMode where
  | shortest
  | positionStable
  | stringPriority
  | openString
  | balanced
deriving DecidableEq, Repr

/-- Embedding of `FingeringMode::from_str`: the alias table; an unrecognized
string is an error (`none`). -/
def FingeringMode.from_str (s : String) : Option FingeringMode :=
  if s = "shortest" then some FingeringMode.shortest
  else if s = "position" ∨ s = "position-stable" then
    some FingeringMode.positionStable
  else if s = "string" ∨ s = "string-priority" then
    some FingeringMode.stringPriority
  else if s = "open" ∨ s = "open-string" then some FingeringMode.openString
  else if s = "balanced" then some FingeringMode.balanced
  else none

/-- Embedding of the WASM entry point `calculate_fingering`: parse the mode
string with fallback `Balanced`, then dispatch to the strategy. -/
def calculate_fingering (pitches : List Nat) (mode : String) :
    Option FingeringPattern :=
  match (FingeringMode.from_str mode).getD FingeringMode.balanced with
  | FingeringMode.shortest => calculate_shortest_path pitches
  | FingeringMode.positionStable => calculate_position_stable pitches 5
  | FingeringMode.stringPriority => calculate_string_priority pitches
  | FingeringMode.openString => calculate_open_string pitches
  | FingeringMode.balanced => calculate_balanced pitches

/-- Embedding of `StringDef` (src/instrument/tuning.rs). -/
structure StringDef where
  open_note : String
  offset : ℤ
deriving DecidableEq, Repr

/-- Embedding of `Tuning` (src/instrument/tuning.rs). -/
structure Tuning where
  name : String
  strings : List StringDef
  max_fret : ℤ
deriving DecidableEq, Repr

/-- Embedding of `Tuning::bass_4`. -/
def Tuning.bass_4 : Tuning :=
  ⟨"bass_4", [⟨"E", 0⟩, ⟨"A", 5⟩, ⟨"D", 10⟩, ⟨"G", 15⟩], 24⟩

/-- Embedding of `Tuning::bass_5`. -/
def Tuning.bass_5 : Tuning :=
  ⟨"bass_5", [⟨"B", -5⟩, ⟨"E", 0⟩, ⟨"A", 5⟩, ⟨"D", 10⟩, ⟨"G", 15⟩], 24⟩

/-- Embedding of `Tuning::bass_6`. -/
def Tuning.bass_6 : Tuning :=
  ⟨"bass_6", [⟨"B", -5⟩, ⟨"E", 0⟩, ⟨"A", 5⟩, ⟨"D", 10⟩, ⟨"G", 15⟩, ⟨"C", 20⟩], 24⟩

/-- Embedding of `Tuning::bass_drop_d`. -/
def Tuning.bass_drop_d : Tuning :=
  ⟨"bass_drop_d", [⟨"D", -2⟩, ⟨"A", 5⟩, ⟨"D", 10⟩, ⟨"G", 15⟩], 24⟩

/-- Embedding of `Tuning::from_name`: lookup of the four presets by name. -/
def Tuning.from_name (name : String) : Option Tuning :=
  if name = "bass_4" then some Tuning.bass_4
  else if name = "bass_5" then some Tuning.bass_5
  else if name = "bass_6" then some Tuning.bass_6
  else if name = "bass_drop_d" then some Tuning.bass_drop_d
  else none

/-- Embedding of the renderer-side `Position` (src/instrument/fretboard.rs):
`i32` string and fret plus pitch/interval labels. -/
structure Position where
  string : ℤ
  fret : ℤ
  pitch : String
  interval : String
deriving DecidableEq, Repr

/-- Embedding of `FretWithPitch` (src/instrument/fretboard.rs). -/
structure FretWithPitch where
  interval : String
  fret : ℤ
  pitch : String
deriving DecidableEq, Repr

/-- Embedding of `convert_to_positions` (src/instrument/fretboard.rs): the
tuning-parametric position generator. For each fret value and each string
(enumerated low to high, externally numbered `num_strings - index`), a
position exists iff `offset ≤ fret ≤ offset + max_fret`, with the stored fret
relative to the string's offset. -/
def convert_to_positions (frets : List FretWithPitch) (tuning : Tuning) :
    List Position :=
  frets.flatMap (fun fwp =>
    tuning.strings.enum.filterMap (fun isd =>
      if isd.2.offset ≤ fwp.fret ∧ fwp.fret ≤ isd.2.offset + tuning.max_fret then
        some ⟨((tuning.strings.length - isd.1 : Nat) : ℤ),
              fwp.fret - isd.2.offset, fwp.pitch, fwp.interval⟩
      else none))

/-- Embedding of the WASM entry point `get_chord_positions_with_tuning`
(src/instrument/fretboard.rs): the tuning name is resolved with fallback
`bass_4`, then handed to the chord-positions pipeline. The chord-name parsing
and octave-expansion pipeline `chord_positions` is an external collaborator
per the specification's scope and is taken as a parameter. -/
def get_chord_positions_with_tuning
    (chord_positions : String → Tuning → List Position)
    (chord : String) (tuning_name : String) : List Position :=
  chord_positions chord ((Tuning.from_name tuning_name).getD Tuning.bass_4)

/-! Helper lemmas about the embedded operations. -/

/-- Unfolding of the strict lexicographic key comparison. -/
theorem lexLt_iff (a b : Nat × Nat) :
    lexLt a b = true ↔ a.1 < b.1 ∨ (a.1 = b.1 ∧ a.2 < b.2) := by
  simp [lexLt]

/-- Unfolding of the negated lexicographic key comparison. -/
theorem lexLt_eq_false_iff (a b : Nat × Nat) :
    lexLt a b = false ↔ ¬(a.1 < b.1 ∨ (a.1 = b.1 ∧ a.2 < b.2)) := by
  simp [lexLt]

/-- Evaluation of the offset table on string 1. -/
theorem stringOffset_one : stringOffset 1 = 15 := rfl

/-- Evaluation of the offset table on string 2. -/
theorem stringOffset_two : stringOffset 2 = 10 := rfl

/-- Evaluation of the offset table on string 3. -/
theorem stringOffset_three : stringOffset 3 = 5 := rfl

/-- Evaluation of the offset table on string 4. -/
theorem stringOffset_four : stringOffset 4 = 0 := rfl

/-- A singleton guarded by a condition contains exactly the guarded element. -/
theorem mem_ite_singleton {α : Type} {x a : α} {c : Prop} [Decidable c] :
    (x ∈ if c then [a] else ([] : List α)) ↔ c ∧ x = a := by
  split_ifs with h <;> simp [h]

/-- `minByFirst` returns `none` exactly on the empty list. -/
theorem minByFirst_eq_none {α : Type} (key : α → Nat × Nat) (l : List α) :
    minByFirst key l = none ↔ l = [] := by
  cases l with
  | nil => simp [minByFirst]
  | cons a as =>
    rw [minByFirst]
    split <;> simp

/-- The element selected by `minByFirst` is a member of the list and no
member has a strictly smaller key. -/
theorem minByFirst_spec {α : Type} (key : α → Nat × Nat) :
    ∀ (l : List α) (c : α), minByFirst key l = some c →
      c ∈ l ∧ ∀ x ∈ l, lexLt (key x) (key c) = false := by
  intro l
  induction l with
  | nil => intro c h; simp [minByFirst] at h
  | cons a as ih =>
    intro c h
    rw [minByFirst] at h
    split at h
    · rename_i hm
      obtain rfl : a = c := by injection h
      have hnil : as = [] := (minByFirst_eq_none key as).mp hm
      subst hnil
      refine ⟨List.mem_singleton_self a, ?_⟩
      intro x hx
      rcases List.mem_singleton.mp hx with rfl
      rw [lexLt_eq_false_iff]
      omega
    · rename_i y hm
      obtain ⟨hy, hmin⟩ := ih y hm
      have hc : (if lexLt (key y) (key a) = true then y else a) = c := by
        injection h
      by_cases hlt : lexLt (key y) (key a) = true
      · rw [if_pos hlt] at hc
        subst hc
        refine ⟨List.mem_cons_of_mem a hy, ?_⟩
        intro x hx
        rcases List.mem_cons.mp hx with rfl | hx2
        · rw [lexLt_iff] at hlt
          rw [lexLt_eq_false_iff]
          omega
        · exact hmin x hx2
      · rw [if_neg hlt] at hc
        subst hc
        refine ⟨List.mem_cons_self a as, ?_⟩
        intro x hx
        rcases List.mem_cons.mp hx with rfl | hx2
        · rw [lexLt_eq_false_iff]
          omega
        · have h1 := hmin x hx2
          rw [lexLt_iff] at hlt
          rw [lexLt_eq_false_iff] at h1 ⊢
          omega

/-- A nonempty list always yields a selection. -/
theorem minByFirst_isSome {α : Type} (key : α → Nat × Nat) (l : List α)
    (h : l ≠ []) : ∃ c, minByFirst key l = some c := by
  cases hm : minByFirst key l with
  | none => exact absurd ((minByFirst_eq_none key l).mp hm) h
  | some c => exact ⟨c, rfl⟩

/-- Membership characterization of the hardcoded 4-string candidate
generator: a candidate on string `s` exists iff
`stringOffset s ≤ pitch ≤ stringOffset s + 24`, with fret
`pitch - stringOffset s` and no finger annotation. -/
theorem mem_generate_all_positions {p : Nat} {c : FretPosition} :
    c ∈ generate_all_positions p ↔
      (c.finger = none ∧ 1 ≤ c.string ∧ c.string ≤ 4 ∧
        stringOffset c.string ≤ p ∧ p ≤ stringOffset c.string + 24 ∧
        c.fret = p - stringOffset c.string) := by
  obtain ⟨s, f, fin⟩ := c
  simp only [generate_all_positions, FretPosition.new, List.mem_append,
    mem_ite_singleton, FretPosition.mk.injEq]
  constructor
  · intro h
    rcases h with ((⟨hc, rfl, rfl, rfl⟩ | ⟨hc, rfl, rfl, rfl⟩) |
        ⟨hc, rfl, rfl, rfl⟩) | ⟨hc, rfl, rfl, rfl⟩ <;>
      simp [stringOffset_one, stringOffset_two, stringOffset_three,
        stringOffset_four] <;>
      omega
  · rintro ⟨rfl, h1, h4, hlo, hhi, rfl⟩
    interval_cases s <;>
      simp only [stringOffset_one, stringOffset_two, stringOffset_three,
        stringOffset_four] at hlo hhi ⊢ <;>
      simp <;> omega

/-- The candidate generator is empty exactly for pitches above 39. -/
theorem generate_all_positions_eq_nil {p : Nat} :
    generate_all_positions p = [] ↔ 39 < p := by
  simp only [generate_all_positions, List.append_eq_nil]
  split_ifs <;> simp <;> omega

/-- Every generated candidate realizes its pitch. -/
theorem absolute_pitch_of_mem {p : Nat} {c : FretPosition}
    (h : c ∈ generate_all_positions p) : c.absolute_pitch = p := by
  rw [mem_generate_all_positions] at h
  obtain ⟨-, -, -, hlo, -, hf⟩ := h
  simp only [FretPosition.absolute_pitch, hf]
  omega

/-- A pitch at most 39 always has a candidate. -/
theorem generate_all_positions_ne_nil {p : Nat} (h : p ≤ 39) :
    generate_all_positions p ≠ [] := by
  rw [Ne, generate_all_positions_eq_nil]
  omega

/-- Extraction of an out-of-range pitch from the tail. -/
theorem bad_pitch_tail {p : Nat} {ps : List Nat}
    (h : ∃ q ∈ p :: ps, 39 < q) (hp : ¬ 39 < p) : ∃ q ∈ ps, 39 < q := by
  rcases h with ⟨q, hq, hgt⟩
  rcases List.mem_cons.mp hq with rfl | hq2
  · exact absurd hgt hp
  · exact ⟨q, hq2, hgt⟩

/-- When every pitch has a candidate, the shortest-path loop succeeds and
selects one candidate per pitch. -/
theorem shortestGo_forall₂ :
    ∀ (ps : List Nat), (∀ p ∈ ps, p ≤ 39) → ∀ prev,
      ∃ sel, shortestGo prev ps = some sel ∧
        List.Forall₂ (fun p c => c ∈ generate_all_positions p) ps sel := by
  intro ps
  induction ps with
  | nil => intro _ prev; exact ⟨[], rfl, List.Forall₂.nil⟩
  | cons p ps ih =>
    intro h prev
    obtain ⟨best, hbest⟩ := minByFirst_isSome (shortestNextKey prev)
      (generate_all_positions p)
      (generate_all_positions_ne_nil (h p (List.mem_cons_self p ps)))
    obtain ⟨sel, hsel, hfa⟩ := ih (fun q hq => h q (List.mem_cons_of_mem p hq)) best
    refine ⟨best :: sel,
      ?_, List.Forall₂.cons ((minByFirst_spec _ _ _ hbest).1) hfa⟩
    simp only [shortestGo, hbest, hsel]

/-- An out-of-range pitch makes the shortest-path loop hit the `unwrap`
panic. -/
theorem shortestGo_none :
    ∀ (ps : List Nat), (∃ p ∈ ps, 39 < p) → ∀ prev,
      shortestGo prev ps = none := by
  intro ps
  induction ps with
  | nil => intro h; simp at h
  | cons p ps ih =>
    intro h prev
    by_cases hp : 39 < p
    · have hnil : generate_all_positions p = [] :=
        generate_all_positions_eq_nil.mpr hp
      simp [shortestGo, hnil, minByFirst]
    · cases hm : minByFirst (shortestNextKey prev) (generate_all_positions p) with
      | none => simp [shortestGo, hm]
      | some best => simp [shortestGo, hm, ih (bad_pitch_tail h hp) best]

/-- When every pitch has a candidate, the position-stable loop succeeds and
selects one candidate per pitch. -/
theorem positionStableGo_forall₂ (base : Nat) :
    ∀ (ps : List Nat), (∀ p ∈ ps, p ≤ 39) →
      ∃ sel, positionStableGo base ps = some sel ∧
        List.Forall₂ (fun p c => c ∈ generate_all_positions p) ps sel := by
  intro ps
  induction ps with
  | nil => intro _; exact ⟨[], rfl, List.Forall₂.nil⟩
  | cons p ps ih =>
    intro h
    obtain ⟨best, hbest⟩ := minByFirst_isSome (positionStableKey base)
      (generate_all_positions p)
      (generate_all_positions_ne_nil (h p (List.mem_cons_self p ps)))
    obtain ⟨sel, hsel, hfa⟩ := ih (fun q hq => h q (List.mem_cons_of_mem p hq))
    refine ⟨best :: sel,
      ?_, List.Forall₂.cons ((minByFirst_spec _ _ _ hbest).1) hfa⟩
    simp only [positionStableGo, hbest, hsel]

/-- An out-of-range pitch makes the position-stable loop hit the `unwrap`
panic. -/
theorem positionStableGo_none (base : Nat) :
    ∀ (ps : List Nat), (∃ p ∈ ps, 39 < p) →
      positionStableGo base ps = none := by
  intro ps
  induction ps with
  | nil => intro h; simp at h
  | cons p ps ih =>
    intro h
    by_cases hp : 39 < p
    · have hnil : generate_all_positions p = [] :=
        generate_all_positions_eq_nil.mpr hp
      simp [positionStableGo, hnil, minByFirst]
    · cases hm : minByFirst (positionStableKey base) (generate_all_positions p) with
      | none => simp [positionStableGo, hm]
      | some best => simp [positionStableGo, hm, ih (bad_pitch_tail h hp)]

/-- When every pitch has a candidate, the open-string loop succeeds and
selects one candidate per pitch. -/
theorem openStringGo_forall₂ :
    ∀ (ps : List Nat), (∀ p ∈ ps, p ≤ 39) →
      ∃ sel, openStringGo ps = some sel ∧
        List.Forall₂ (fun p c => c ∈ generate_all_positions p) ps sel := by
  intro ps
  induction ps with
  | nil => intro _; exact ⟨[], rfl, List.Forall₂.nil⟩
  | cons p ps ih =>
    intro h
    obtain ⟨best, hbest⟩ := minByFirst_isSome openStringKey
      (generate_all_positions p)
      (generate_all_positions_ne_nil (h p (List.mem_cons_self p ps)))
    obtain ⟨sel, hsel, hfa⟩ := ih (fun q hq => h q (List.mem_cons_of_mem p hq))
    refine ⟨best :: sel,
      ?_, List.Forall₂.cons ((minByFirst_spec _ _ _ hbest).1) hfa⟩
    simp only [openStringGo, hbest, hsel]

/-- An out-of-range pitch makes the open-string loop hit the `unwrap`
panic. -/
theorem openStringGo_none :
    ∀ (ps : List Nat), (∃ p ∈ ps, 39 < p) → openStringGo ps = none := by
  intro ps
  induction ps with
  | nil => intro h; simp at h
  | cons p ps ih =>
    intro h
    by_cases hp : 39 < p
    · have hnil : generate_all_positions p = [] :=
        generate_all_positions_eq_nil.mpr hp
      simp [openStringGo, hnil, minByFirst]
    · cases hm : minByFirst openStringKey (generate_all_positions p) with
      | none => simp [openStringGo, hm]
      | some best => simp [openStringGo, hm, ih (bad_pitch_tail h hp)]

/-- When every pitch has a candidate, the string-priority loop succeeds and
selects one candidate per pitch. -/
theorem stringPriorityGo_forall₂ :
    ∀ (ps : List Nat), (∀ p ∈ ps, p ≤ 39) → ∀ prev,
      ∃ sel, stringPriorityGo prev ps = some sel ∧
        List.Forall₂ (fun p c => c ∈ generate_all_positions p) ps sel := by
  intro ps
  induction ps with
  | nil => intro _ prev; exact ⟨[], rfl, List.Forall₂.nil⟩
  | cons p ps ih =>
    intro h prev
    obtain ⟨best, hbest⟩ := minByFirst_isSome (stringPriorityNextKey prev)
      (generate_all_positions p)
      (generate_all_positions_ne_nil (h p (List.mem_cons_self p ps)))
    obtain ⟨sel, hsel, hfa⟩ := ih (fun q hq => h q (List.mem_cons_of_mem p hq)) best
    refine ⟨best :: sel,
      ?_, List.Forall₂.cons ((minByFirst_spec _ _ _ hbest).1) hfa⟩
    simp only [stringPriorityGo, hbest, hsel]

/-- An out-of-range pitch makes the string-priority loop hit the `unwrap`
panic. -/
theorem stringPriorityGo_none :
    ∀ (ps : List Nat), (∃ p ∈ ps, 39 < p) → ∀ prev,
      stringPriorityGo prev ps = none := by
  intro ps
  induction ps with
  | nil => intro h; simp at h
  | cons p ps ih =>
    intro h prev
    by_cases hp : 39 < p
    · have hnil : generate_all_positions p = [] :=
        generate_all_positions_eq_nil.mpr hp
      simp [stringPriorityGo, hnil, minByFirst]
    · cases hm : minByFirst (stringPriorityNextKey prev)
          (generate_all_positions p) with
      | none => simp [stringPriorityGo, hm]
      | some best => simp [stringPriorityGo, hm, ih (bad_pitch_tail h hp) best]

/-- Pointwise extraction from `List.Forall₂`. -/
theorem forall₂_index {α β : Type} {R : α → β → Prop} :
    ∀ {l₁ : List α} {l₂ : List β}, List.Forall₂ R l₁ l₂ →
      ∀ (i : Nat) (a : α) (b : β), l₁[i]? = some a → l₂[i]? = some b → R a b := by
  intro l₁ l₂ h
  induction h with
  | nil => intro i a b h1 _; simp at h1
  | cons hR _ ih =>
    intro i a b h1 h2
    cases i with
    | zero =>
      simp only [List.getElem?_cons_zero, Option.some.injEq] at h1 h2
      subst h1
      subst h2
      exact hR
    | succ j =>
      simp only [List.getElem?_cons_succ] at h1 h2
      exact ih j a b h1 h2

/-- A pattern's score under given weights only depends on its positions. -/
theorem calculate_score_congr (w : AlgorithmWeights)
    {pat1 pat2 : FingeringPattern} (h : pat1.positions = pat2.positions) :
    w.calculate_score pat1 = w.calculate_score pat2 := by
  simp only [AlgorithmWeights.calculate_score, FingeringPattern.total_movement,
    FingeringPattern.position_changes, FingeringPattern.open_string_count,
    FingeringPattern.string_changes, h]

/-- On a three-element list, `minByScoreFirst` returns one of the three
patterns, whose score is the minimum of the three scores. -/
theorem minByScoreFirst_three (w : AlgorithmWeights)
    (a b c : FingeringPattern) :
    ∃ x, minByScoreFirst w [a, b, c] = some x ∧ (x = a ∨ x = b ∨ x = c) ∧
      w.calculate_score x = min (min (w.calculate_score a) (w.calculate_score b))
        (w.calculate_score c) := by
  simp only [minByScoreFirst]
  refine ⟨_, rfl, ?_, ?_⟩
  · split_ifs <;> tauto
  · split_ifs <;> rw [min_def, min_def] <;> split_ifs <;> linarith

/-- When every pitch is in range, `calculate_shortest_path` returns a pattern
selecting one generated candidate per pitch. -/
theorem calculate_shortest_path_realizes {ps : List Nat}
    (h : ∀ p ∈ ps, p ≤ 39) :
    ∃ pat, calculate_shortest_path ps = some pat ∧
      List.Forall₂ (fun p c => c ∈ generate_all_positions p) ps pat.positions := by
  cases ps with
  | nil => exact ⟨_, rfl, List.Forall₂.nil⟩
  | cons p ps =>
    obtain ⟨first, hfirst⟩ := minByFirst_isSome shortestFirstKey
      (generate_all_positions p)
      (generate_all_positions_ne_nil (h p (List.mem_cons_self p ps)))
    obtain ⟨rest, hrest, hfa⟩ :=
      shortestGo_forall₂ ps (fun q hq => h q (List.mem_cons_of_mem p hq)) first
    refine ⟨⟨first :: rest,
        AlgorithmWeights.shortest.calculate_score
          (FingeringPattern.new (first :: rest) "shortest"), "shortest"⟩,
      ?_, List.Forall₂.cons ((minByFirst_spec _ _ _ hfirst).1) hfa⟩
    simp only [calculate_shortest_path, hfirst, hrest]
    rfl

/-- An out-of-range pitch makes `calculate_shortest_path` panic. -/
theorem calculate_shortest_path_eq_none {ps : List Nat}
    (h : ∃ p ∈ ps, 39 < p) : calculate_shortest_path ps = none := by
  cases ps with
  | nil => simp at h
  | cons p ps =>
    by_cases hp : 39 < p
    · have hnil : generate_all_positions p = [] :=
        generate_all_positions_eq_nil.mpr hp
      simp [calculate_shortest_path, hnil, minByFirst]
    · cases hm : minByFirst shortestFirstKey (generate_all_positions p) with
      | none => simp [calculate_shortest_path, hm]
      | some first =>
        simp [calculate_shortest_path, hm,
          shortestGo_none ps (bad_pitch_tail h hp) first]

/-- When every pitch is in range, `calculate_position_stable` returns a
pattern selecting one generated candidate per pitch. -/
theorem calculate_position_stable_realizes {ps : List Nat} (base : Nat)
    (h : ∀ p ∈ ps, p ≤ 39) :
    ∃ pat, calculate_position_stable ps base = some pat ∧
      List.Forall₂ (fun p c => c ∈ generate_all_positions p) ps pat.positions := by
  cases ps with
  | nil => exact ⟨_, rfl, List.Forall₂.nil⟩
  | cons p ps =>
    obtain ⟨sel, hsel, hfa⟩ := positionStableGo_forall₂ base (p :: ps) h
    refine ⟨⟨sel,
        AlgorithmWeights.position_stable.calculate_score
          (FingeringPattern.new sel "position-stable"), "position-stable"⟩,
      ?_, hfa⟩
    simp only [calculate_position_stable, hsel]
    rfl

/-- An out-of-range pitch makes `calculate_position_stable` panic. -/
theorem calculate_position_stable_eq_none {ps : List Nat} (base : Nat)
    (h : ∃ p ∈ ps, 39 < p) : calculate_position_stable ps base = none := by
  cases ps with
  | nil => simp at h
  | cons p ps =>
    simp [calculate_position_stable, positionStableGo_none base (p :: ps) h]

/-- When every pitch is in range, `calculate_open_string` returns a pattern
selecting one generated candidate per pitch. -/
theorem calculate_open_string_realizes {ps : List Nat}
    (h : ∀ p ∈ ps, p ≤ 39) :
    ∃ pat, calculate_open_string ps = some pat ∧
      List.Forall₂ (fun p c => c ∈ generate_all_positions p) ps pat.positions := by
  cases ps with
  | nil => exact ⟨_, rfl, List.Forall₂.nil⟩
  | cons p ps =>
    obtain ⟨sel, hsel, hfa⟩ := openStringGo_forall₂ (p :: ps) h
    refine ⟨⟨sel,
        AlgorithmWeights.open_string.calculate_score
          (FingeringPattern.new sel "open-string"), "open-string"⟩,
      ?_, hfa⟩
    simp only [calculate_open_string, hsel]
    rfl

/-- An out-of-range pitch makes `calculate_open_string` panic. -/
theorem calculate_open_string_eq_none {ps : List Nat}
    (h : ∃ p ∈ ps, 39 < p) : calculate_open_string ps = none := by
  cases ps with
  | nil => simp at h
  | cons p ps =>
    simp [calculate_open_string, openStringGo_none (p :: ps) h]

/-- When every pitch is in range, `calculate_string_priority` returns a
pattern selecting one generated candidate per pitch. -/
theorem calculate_string_priority_realizes {ps : List Nat}
    (h : ∀ p ∈ ps, p ≤ 39) :
    ∃ pat, calculate_string_priority ps = some pat ∧
      List.Forall₂ (fun p c => c ∈ generate_all_positions p) ps pat.positions := by
  cases ps with
  | nil => exact ⟨_, rfl, List.Forall₂.nil⟩
  | cons p ps =>
    obtain ⟨first, hfirst⟩ := minByFirst_isSome stringPriorityFirstKey
      (generate_all_positions p)
      (generate_all_positions_ne_nil (h p (List.mem_cons_self p ps)))
    obtain ⟨rest, hrest, hfa⟩ :=
      stringPriorityGo_forall₂ ps (fun q hq => h q (List.mem_cons_of_mem p hq)) first
    refine ⟨⟨first :: rest,
        AlgorithmWeights.string_priority.calculate_score
          (FingeringPattern.new (first :: rest) "string-priority"),
        "string-priority"⟩,
      ?_, List.Forall₂.cons ((minByFirst_spec _ _ _ hfirst).1) hfa⟩
    simp only [calculate_string_priority, hfirst, hrest]
    rfl

/-- An out-of-range pitch makes `calculate_string_priority` panic. -/
theorem calculate_string_priority_eq_none {ps : List Nat}
    (h : ∃ p ∈ ps, 39 < p) : calculate_string_priority ps = none := by
  cases ps with
  | nil => simp at h
  | cons p ps =>
    by_cases hp : 39 < p
    · have hnil : generate_all_positions p = [] :=
        generate_all_positions_eq_nil.mpr hp
      simp [calculate_string_priority, hnil, minByFirst]
    · cases hm : minByFirst stringPriorityFirstKey (generate_all_positions p) with
      | none => simp [calculate_string_priority, hm]
      | some first =>
        simp [calculate_string_priority, hm,
          stringPriorityGo_none ps (bad_pitch_tail h hp) first]

/-- When every pitch is in range, `calculate_balanced` returns a pattern
selecting one generated candidate per pitch. -/
theorem calculate_balanced_realizes {ps : List Nat}
    (h : ∀ p ∈ ps, p ≤ 39) :
    ∃ pat, calculate_balanced ps = some pat ∧
      List.Forall₂ (fun p c => c ∈ generate_all_positions p) ps pat.positions := by
  cases ps with
  | nil => exact ⟨_, rfl, List.Forall₂.nil⟩
  | cons p ps =>
    obtain ⟨s, hs, hsfa⟩ := calculate_shortest_path_realizes h
    obtain ⟨q, hq, hqfa⟩ := calculate_position_stable_realizes 5 h
    obtain ⟨o, ho, hofa⟩ := calculate_open_string_realizes h
    obtain ⟨x, hx, hmem, -⟩ := minByScoreFirst_three AlgorithmWeights.balanced s q o
    refine ⟨⟨x.positions, AlgorithmWeights.balanced.calculate_score x,
        "balanced"⟩, ?_, ?_⟩
    · simp only [calculate_balanced, hs, hq, ho, hx]
    · rcases hmem with rfl | rfl | rfl
      · exact hsfa
      · exact hqfa
      · exact hofa

/-- An out-of-range pitch makes `calculate_balanced` panic (the panic of the
inner `calculate_shortest_path` call propagates). -/
theorem calculate_balanced_eq_none {ps : List Nat}
    (h : ∃ p ∈ ps, 39 < p) : calculate_balanced ps = none := by
  cases ps with
  | nil => simp at h
  | cons p ps =>
    simp [calculate_balanced, calculate_shortest_path_eq_none h]

/-- The total-movement loop equals the indexed sum over consecutive pairs. -/
theorem totalMovementGo_eq_sum (l : List FretPosition) :
    totalMovementGo l = ∑ i ∈ Finset.range (l.length - 1),
      movementStep (l.getD i default) (l.getD (i + 1) default) := by
  induction l with
  | nil => simp [totalMovementGo]
  | cons a l ih =>
    cases l with
    | nil => simp [totalMovementGo]
    | cons b rest =>
      rw [totalMovementGo, ih]
      have hlen : (a :: b :: rest).length - 1 = ((b :: rest).length - 1) + 1 := by
        simp
      rw [hlen, Finset.sum_range_succ']
      simp only [List.getD_cons_succ, List.getD_cons_zero]
      omega

/-- Each selection of the string-priority loop after the first pitch is the
`minByFirst` choice for that pitch relative to the previously selected
position. -/
theorem stringPriorityGo_step :
    ∀ (ps : List Nat) (prev : FretPosition) (sel : List FretPosition),
      stringPriorityGo prev ps = some sel →
      ∀ (i : Nat) (p : Nat) (b c : FretPosition),
        ps[i]? = some p → (prev :: sel)[i]? = some b → sel[i]? = some c →
        minByFirst (stringPriorityNextKey b) (generate_all_positions p) =
          some c := by
  intro ps
  induction ps with
  | nil =>
    intro prev sel h i p b c hp hb hc
    simp at hp
  | cons q qs ih =>
    intro prev sel h i p b c hp hb hc
    rw [stringPriorityGo] at h
    split at h
    · exact absurd h (by simp)
    · rename_i best hm
      split at h
      · exact absurd h (by simp)
      · rename_i rest hg
        obtain rfl : best :: rest = sel := by injection h
        cases i with
        | zero =>
          simp only [List.getElem?_cons_zero, Option.some.injEq] at hp hb hc
          subst hp
          subst hb
          subst hc
          exact hm
        | succ j =>
          simp only [List.getElem?_cons_succ] at hp hb hc
          exact ih best rest hg j p b c hp hb hc

/-- Evaluation of `minByScoreFirst` on a three-element list when the third
score is below the second but not below the first. -/
theorem minByScoreFirst_three_eval (w : AlgorithmWeights)
    (s q o : FingeringPattern)
    (h1 : w.calculate_score o < w.calculate_score q)
    (h2 : ¬ w.calculate_score o < w.calculate_score s) :
    minByScoreFirst w [s, q, o] = some s := by
  simp only [minByScoreFirst]
  rw [if_pos h1, if_neg h2]

/-- Evaluation of `calculate_balanced` from evaluations of its three
sub-strategies and of the score minimization. -/
theorem calculate_balanced_eval (p : Nat) (ps : List Nat)
    (s q o best : FingeringPattern)
    (hs : calculate_shortest_path (p :: ps) = some s)
    (hq : calculate_position_stable (p :: ps) 5 = some q)
    (ho : calculate_open_string (p :: ps) = some o)
    (hbest : minByScoreFirst AlgorithmWeights.balanced [s, q, o] = some best) :
    calculate_balanced (p :: ps) = some { best with algorithm := "balanced", score := AlgorithmWeights.balanced.calculate_score best } := by
  cases hb : calculate_balanced (p :: ps) with
  | none =>
    exfalso
    rw [calculate_balanced] at hb
    split at hb
    · rename_i s2 q2 o2 hs2 hq2 ho2
      rw [hs] at hs2
      injection hs2 with e1
      subst e1
      rw [hq] at hq2
      injection hq2 with e2
      subst e2
      rw [ho] at ho2
      injection ho2 with e3
      subst e3
      simp [hbest] at hb
    · rename_i hcontra
      exact hcontra s q o hs hq ho
  | some r =>
    rw [calculate_balanced] at hb
    split at hb
    · rename_i s2 q2 o2 hs2 hq2 ho2
      rw [hs] at hs2
      injection hs2 with e1
      subst e1
      rw [hq] at hq2
      injection hq2 with e2
      subst e2
      rw [ho] at ho2
      injection ho2 with e3
      subst e3
      simp only [hbest] at hb
      rw [← hb]
    · rename_i hcontra
      exact absurd (hcontra s q o hs hq ho) (by simp)

/-! Claim theorems. -/

/-- Claim C1, counterexample: at the one-pitch sequence `[40]` (a pitch with
no candidate under the 4-string generator) every strategy hits the `unwrap`
of an empty `min_by_key` result and terminates abnormally (modelled as
`none`); no `NoCandidatePosition` error value is returned to the caller — the
code has no error channel at all — refuting the claim that the strategy
"fails with a NoCandidatePosition error ... rather than ... terminating
abnormally". -/
theorem claim_C1_counterexample :
    calculate_shortest_path [40] = none ∧
    calculate_position_stable [40] 5 = none ∧
    calculate_open_string [40] = none ∧
    calculate_string_priority [40] = none ∧
    calculate_balanced [40] = none := by
  decide

/-- Claim C1, amended: for every pitch sequence containing a pitch with no
candidate (pitch above 39 under the hardcoded 4-string generator), every
strategy terminates abnormally (it panics on the `unwrap` of an empty
candidate list, modelled as `none`); it never returns an empty or partial
pattern and never silently skips the pitch, but no `NoCandidatePosition`
error value is surfaced to the caller. -/
theorem claim_C1 (ps : List Nat) (hbad : ∃ p ∈ ps, 39 < p) :
    calculate_shortest_path ps = none ∧
    (∀ base, calculate_position_stable ps base = none) ∧
    calculate_open_string ps = none ∧
    calculate_string_priority ps = none ∧
    calculate_balanced ps = none :=
  ⟨calculate_shortest_path_eq_none hbad,
   fun base => calculate_position_stable_eq_none base hbad,
   calculate_open_string_eq_none hbad,
   calculate_string_priority_eq_none hbad,
   calculate_balanced_eq_none hbad⟩

/-- Witness for the amended claim C1 at the concrete sequence `[40]`. -/
theorem claim_C1_witness :
    (∃ p ∈ ([40] : List Nat), 39 < p) ∧
    (calculate_shortest_path [40] = none ∧
      (∀ base, calculate_position_stable [40] base = none) ∧
      calculate_open_string [40] = none ∧
      calculate_string_priority [40] = none ∧
      calculate_balanced [40] = none) :=
  ⟨by decide, claim_C1 [40] (by decide)⟩

/-- Claim C2 (confirmed): under the hardcoded 4-string generator a candidate
on string `s` exists iff `stringOffset s ≤ p ≤ stringOffset s + 24` (offsets
15, 10, 5, 0 for strings 1..4, `maxFret` 24) with fret `p - stringOffset s`;
pitch 5 yields exactly the two candidates (string 4, fret 5) and (string 3,
fret 0); and the tuning-parametric generator `convert_to_positions` yields a
position for a string of the tuning iff `offset ≤ fret value ≤ offset +
max_fret`, with stored fret `value - offset`. -/
theorem claim_C2 :
    (∀ (p : Nat) (c : FretPosition),
      c ∈ generate_all_positions p ↔
        (c.finger = none ∧ 1 ≤ c.string ∧ c.string ≤ 4 ∧
          stringOffset c.string ≤ p ∧ p ≤ stringOffset c.string + 24 ∧
          c.fret = p - stringOffset c.string)) ∧
    generate_all_positions 5 = [FretPosition.new 4 5, FretPosition.new 3 0] ∧
    (∀ (tuning : Tuning) (fwp : FretWithPitch) (pos : Position),
      pos ∈ convert_to_positions [fwp] tuning ↔
        ∃ i sd, tuning.strings[i]? = some sd ∧
          sd.offset ≤ fwp.fret ∧ fwp.fret ≤ sd.offset + tuning.max_fret ∧
          pos = ⟨((tuning.strings.length - i : Nat) : ℤ),
                  fwp.fret - sd.offset, fwp.pitch, fwp.interval⟩) := by
  refine ⟨fun p c => mem_generate_all_positions, by decide, ?_⟩
  intro tuning fwp pos
  simp only [convert_to_positions, List.flatMap_cons, List.flatMap_nil,
    List.append_nil, List.mem_filterMap]
  constructor
  · rintro ⟨⟨i, sd⟩, hmem, hg⟩
    rw [List.mk_mem_enum_iff_getElem?] at hmem
    dsimp only at hg
    by_cases hc : sd.offset ≤ fwp.fret ∧ fwp.fret ≤ sd.offset + tuning.max_fret
    · rw [if_pos hc] at hg
      injection hg with hg
      exact ⟨i, sd, hmem, hc.1, hc.2, hg.symm⟩
    · rw [if_neg hc] at hg
      exact absurd hg (by simp)
  · rintro ⟨i, sd, hget, h1, h2, rfl⟩
    refine ⟨(i, sd), ?_, ?_⟩
    · rw [List.mk_mem_enum_iff_getElem?]
      exact hget
    · dsimp only
      rw [if_pos ⟨h1, h2⟩]

/-- Claim C5 (confirmed): every mode string outside the alias set is parsed
as an error and replaced by the `Balanced` fallback, so the entry point does
not fail and returns exactly the result of mode "balanced". -/
theorem claim_C5 (ps : List Nat) (mode : String)
    (h1 : mode ≠ "shortest") (h2 : mode ≠ "position")
    (h3 : mode ≠ "position-stable") (h4 : mode ≠ "string")
    (h5 : mode ≠ "string-priority") (h6 : mode ≠ "open")
    (h7 : mode ≠ "open-string") (h8 : mode ≠ "balanced") :
    calculate_fingering ps mode = calculate_fingering ps "balanced" := by
  have hf : FingeringMode.from_str mode = none := by
    simp [FingeringMode.from_str, h1, h2, h3, h4, h5, h6, h7, h8]
  have hb : FingeringMode.from_str "balanced" = some FingeringMode.balanced := by
    decide
  rw [calculate_fingering, calculate_fingering, hf, hb]
  rfl

/-- Witness for claim C5 at the unrecognized mode string "xyz". -/
theorem claim_C5_witness :
    ("xyz" ≠ "shortest" ∧ "xyz" ≠ "position" ∧ "xyz" ≠ "position-stable" ∧
      "xyz" ≠ "string" ∧ "xyz" ≠ "string-priority" ∧ "xyz" ≠ "open" ∧
      "xyz" ≠ "open-string" ∧ "xyz" ≠ "balanced") ∧
    calculate_fingering [5] "xyz" = calculate_fingering [5] "balanced" :=
  ⟨by decide, claim_C5 [5] "xyz" (by decide) (by decide) (by decide)
    (by decide) (by decide) (by decide) (by decide) (by decide)⟩

/-- Claim C6 (confirmed): `total_movement` is the sum over consecutive pairs
of `|fret[i] - fret[i-1]|` on the same string and `1 + |fret[i] - fret[i-1]|
div 2` (integer division) across strings, and it is 0 for patterns of length
at most one. -/
theorem claim_C6 (pat : FingeringPattern) :
    pat.total_movement = (∑ i ∈ Finset.range (pat.positions.length - 1),
      if (pat.positions.getD i default).string =
          (pat.positions.getD (i + 1) default).string
      then (((pat.positions.getD i default).fret : ℤ) -
              ((pat.positions.getD (i + 1) default).fret : ℤ)).natAbs
      else 1 + (((pat.positions.getD i default).fret : ℤ) -
              ((pat.positions.getD (i + 1) default).fret : ℤ)).natAbs / 2) ∧
    (pat.positions.length ≤ 1 → pat.total_movement = 0) := by
  constructor
  · rw [FingeringPattern.total_movement, totalMovementGo_eq_sum]
    simp only [movementStep]
  · intro h
    rw [FingeringPattern.total_movement]
    cases hl : pat.positions with
    | nil => rfl
    | cons a l =>
      cases l with
      | nil => rfl
      | cons b rest =>
        rw [hl] at h
        simp at h

/-- Witness for claim C6 at a concrete one-position pattern. -/
theorem claim_C6_witness :
    (FingeringPattern.new [FretPosition.new 4 3] "t").positions.length ≤ 1 ∧
    (FingeringPattern.new [FretPosition.new 4 3] "t").total_movement = 0 :=
  ⟨by decide, (claim_C6 (FingeringPattern.new [FretPosition.new 4 3] "t")).2
    (by decide)⟩

/-- Claim C7 (confirmed): the left-hand zone of a fret is 0 for fret 0 and
`((fret - 1) div 4) * 4 + 1` otherwise; frets 1-4 map to zone 1, frets 5-8 to
zone 5, and frets 9-12 to zone 9. -/
theorem claim_C7 (s f : Nat) (fin : Option Nat) :
    (FretPosition.mk s f fin).position =
      (if f = 0 then 0 else ((f - 1) / 4) * 4 + 1) ∧
    (f = 0 → (FretPosition.mk s f fin).position = 0) ∧
    (1 ≤ f → f ≤ 4 → (FretPosition.mk s f fin).position = 1) ∧
    (5 ≤ f → f ≤ 8 → (FretPosition.mk s f fin).position = 5) ∧
    (9 ≤ f → f ≤ 12 → (FretPosition.mk s f fin).position = 9) := by
  refine ⟨rfl, fun h => by simp [FretPosition.position, h],
    fun h1 h2 => ?_, fun h1 h2 => ?_, fun h1 h2 => ?_⟩ <;>
    simp only [FretPosition.position] <;>
    rw [if_neg (by omega)] <;>
    omega

/-- Witness for claim C7 at fret 6, which lies in zone 5. -/
theorem claim_C7_witness :
    (5 ≤ 6 ∧ 6 ≤ 8) ∧ (FretPosition.mk 4 6 none).position = 5 :=
  ⟨by decide, (claim_C7 4 6 none).2.2.2.1 (by decide) (by decide)⟩

/-- Claim C8 (confirmed): on the empty pitch sequence every strategy, and the
entry point under every mode string, returns a pattern with an empty position
list and score exactly 0. -/
theorem claim_C8 :
    (∃ pat, calculate_shortest_path [] = some pat ∧
      pat.positions = [] ∧ pat.score = 0) ∧
    (∀ base, ∃ pat, calculate_position_stable [] base = some pat ∧
      pat.positions = [] ∧ pat.score = 0) ∧
    (∃ pat, calculate_open_string [] = some pat ∧
      pat.positions = [] ∧ pat.score = 0) ∧
    (∃ pat, calculate_string_priority [] = some pat ∧
      pat.positions = [] ∧ pat.score = 0) ∧
    (∃ pat, calculate_balanced [] = some pat ∧
      pat.positions = [] ∧ pat.score = 0) ∧
    (∀ mode : String, ∃ pat, calculate_fingering [] mode = some pat ∧
      pat.positions = [] ∧ pat.score = 0) := by
  refine ⟨⟨_, rfl, rfl, rfl⟩, fun base => ⟨_, rfl, rfl, rfl⟩,
    ⟨_, rfl, rfl, rfl⟩, ⟨_, rfl, rfl, rfl⟩, ⟨_, rfl, rfl, rfl⟩, ?_⟩
  intro mode
  rw [calculate_fingering]
  cases (FingeringMode.from_str mode).getD FingeringMode.balanced <;>
    exact ⟨_, rfl, rfl, rfl⟩

/-- Claim C9 (confirmed): lookup of a tuning name outside the four presets
returns `none`, and the caller-facing chord-position entry point substitutes
the `bass_4` preset, giving output identical to an explicit `bass_4` request
for every chord-positions pipeline. -/
theorem claim_C9 (cp : String → Tuning → List Position) (chord name : String)
    (h1 : name ≠ "bass_4") (h2 : name ≠ "bass_5") (h3 : name ≠ "bass_6")
    (h4 : name ≠ "bass_drop_d") :
    Tuning.from_name name = none ∧
    get_chord_positions_with_tuning cp chord name =
      get_chord_positions_with_tuning cp chord "bass_4" := by
  have hf : Tuning.from_name name = none := by
    simp [Tuning.from_name, h1, h2, h3, h4]
  refine ⟨hf, ?_⟩
  rw [get_chord_positions_with_tuning, get_chord_positions_with_tuning, hf]
  rfl

/-- Witness for claim C9 at the unrecognized tuning name "unknown". -/
theorem claim_C9_witness :
    ("unknown" ≠ "bass_4" ∧ "unknown" ≠ "bass_5" ∧ "unknown" ≠ "bass_6" ∧
      "unknown" ≠ "bass_drop_d") ∧
    Tuning.from_name "unknown" = none ∧
    get_chord_positions_with_tuning (fun _ _ => []) "C" "unknown" =
      get_chord_positions_with_tuning (fun _ _ => []) "C" "bass_4" :=
  ⟨by decide, claim_C9 (fun _ _ => []) "C" "unknown" (by decide) (by decide)
    (by decide) (by decide)⟩

/-- Claim C3 (confirmed): whenever the balanced strategy returns a pattern on
a non-empty sequence, its balanced-weight score is the minimum of the
balanced-weight scores of the shortest, position-stable (base 5) and
open-string results on the same sequence (string-priority is not compared);
the returned pattern is retagged "balanced" and its stored score is the
balanced-weight score. -/
theorem claim_C3 (ps : List Nat) (pat : FingeringPattern)
    (hne : ps ≠ []) (h : calculate_balanced ps = some pat) :
    ∃ s q o, calculate_shortest_path ps = some s ∧
      calculate_position_stable ps 5 = some q ∧
      calculate_open_string ps = some o ∧
      AlgorithmWeights.balanced.calculate_score pat =
        min (min (AlgorithmWeights.balanced.calculate_score s)
          (AlgorithmWeights.balanced.calculate_score q))
          (AlgorithmWeights.balanced.calculate_score o) ∧
      pat.algorithm = "balanced" ∧
      pat.score = AlgorithmWeights.balanced.calculate_score pat := by
  cases ps with
  | nil => exact absurd rfl hne
  | cons p ps2 =>
    rw [calculate_balanced] at h
    split at h
    · rename_i s q o hs hq ho
      obtain ⟨x, hx, hmem, hscore⟩ :=
        minByScoreFirst_three AlgorithmWeights.balanced s q o
      rw [hx] at h
      injection h with h2
      subst h2
      have hpos : ({ x with algorithm := "balanced", score := AlgorithmWeights.balanced.calculate_score x } : FingeringPattern).positions = x.positions := rfl
      refine ⟨s, q, o, hs, hq, ho, ?_, rfl, ?_⟩
      · rw [calculate_score_congr AlgorithmWeights.balanced hpos, hscore]
      · exact (calculate_score_congr AlgorithmWeights.balanced hpos).symm
    · exact absurd h (by simp)

/-- Witness for claim C3 at the concrete sequence `[5, 7, 5]`. -/
theorem claim_C3_witness :
    ∃ pat, ((([5, 7, 5] : List Nat) ≠ [] ∧
        calculate_balanced [5, 7, 5] = some pat)) ∧
      (∃ s q o, calculate_shortest_path [5, 7, 5] = some s ∧
        calculate_position_stable [5, 7, 5] 5 = some q ∧
        calculate_open_string [5, 7, 5] = some o ∧
        AlgorithmWeights.balanced.calculate_score pat =
          min (min (AlgorithmWeights.balanced.calculate_score s)
            (AlgorithmWeights.balanced.calculate_score q))
            (AlgorithmWeights.balanced.calculate_score o) ∧
        pat.algorithm = "balanced" ∧
        pat.score = AlgorithmWeights.balanced.calculate_score pat) := by
  have hs : calculate_shortest_path [5, 7, 5] = some (FingeringPattern.mk [FretPosition.new 3 0, FretPosition.new 3 2, FretPosition.new 3 0] (AlgorithmWeights.shortest.calculate_score (FingeringPattern.new [FretPosition.new 3 0, FretPosition.new 3 2, FretPosition.new 3 0] "shortest")) "shortest") := rfl
  have hq : calculate_position_stable [5, 7, 5] 5 = some (FingeringPattern.mk [FretPosition.new 4 5, FretPosition.new 4 7, FretPosition.new 4 5] (AlgorithmWeights.position_stable.calculate_score (FingeringPattern.new [FretPosition.new 4 5, FretPosition.new 4 7, FretPosition.new 4 5] "position-stable")) "position-stable") := rfl
  have ho : calculate_open_string [5, 7, 5] = some (FingeringPattern.mk [FretPosition.new 3 0, FretPosition.new 3 2, FretPosition.new 3 0] (AlgorithmWeights.open_string.calculate_score (FingeringPattern.new [FretPosition.new 3 0, FretPosition.new 3 2, FretPosition.new 3 0] "open-string")) "open-string") := rfl
  have eS : AlgorithmWeights.balanced.calculate_score (FingeringPattern.mk [FretPosition.new 3 0, FretPosition.new 3 2, FretPosition.new 3 0] (AlgorithmWeights.shortest.calculate_score (FingeringPattern.new [FretPosition.new 3 0, FretPosition.new 3 2, FretPosition.new 3 0] "shortest")) "shortest") = 2 := by
    have h1 : FingeringPattern.total_movement (FingeringPattern.mk [FretPosition.new 3 0, FretPosition.new 3 2, FretPosition.new 3 0] (AlgorithmWeights.shortest.calculate_score (FingeringPattern.new [FretPosition.new 3 0, FretPosition.new 3 2, FretPosition.new 3 0] "shortest")) "shortest") = 4 := by decide
    have h2 : FingeringPattern.position_changes (FingeringPattern.mk [FretPosition.new 3 0, FretPosition.new 3 2, FretPosition.new 3 0] (AlgorithmWeights.shortest.calculate_score (FingeringPattern.new [FretPosition.new 3 0, FretPosition.new 3 2, FretPosition.new 3 0] "shortest")) "shortest") = 0 := by decide
    have h3 : FingeringPattern.open_string_count (FingeringPattern.mk [FretPosition.new 3 0, FretPosition.new 3 2, FretPosition.new 3 0] (AlgorithmWeights.shortest.calculate_score (FingeringPattern.new [FretPosition.new 3 0, FretPosition.new 3 2, FretPosition.new 3 0] "shortest")) "shortest") = 2 := by decide
    have h4 : FingeringPattern.string_changes (FingeringPattern.mk [FretPosition.new 3 0, FretPosition.new 3 2, FretPosition.new 3 0] (AlgorithmWeights.shortest.calculate_score (FingeringPattern.new [FretPosition.new 3 0, FretPosition.new 3 2, FretPosition.new 3 0] "shortest")) "shortest") = 0 := by decide
    rw [AlgorithmWeights.calculate_score, h1, h2, h3, h4]
    norm_num [AlgorithmWeights.balanced, AlgorithmWeights.default]
  have eQ : AlgorithmWeights.balanced.calculate_score (FingeringPattern.mk [FretPosition.new 4 5, FretPosition.new 4 7, FretPosition.new 4 5] (AlgorithmWeights.position_stable.calculate_score (FingeringPattern.new [FretPosition.new 4 5, FretPosition.new 4 7, FretPosition.new 4 5] "position-stable")) "position-stable") = 4 := by
    have h1 : FingeringPattern.total_movement (FingeringPattern.mk [FretPosition.new 4 5, FretPosition.new 4 7, FretPosition.new 4 5] (AlgorithmWeights.position_stable.calculate_score (FingeringPattern.new [FretPosition.new 4 5, FretPosition.new 4 7, FretPosition.new 4 5] "position-stable")) "position-stable") = 4 := by decide
    have h2 : FingeringPattern.position_changes (FingeringPattern.mk [FretPosition.new 4 5, FretPosition.new 4 7, FretPosition.new 4 5] (AlgorithmWeights.position_stable.calculate_score (FingeringPattern.new [FretPosition.new 4 5, FretPosition.new 4 7, FretPosition.new 4 5] "position-stable")) "position-stable") = 0 := by decide
    have h3 : FingeringPattern.open_string_count (FingeringPattern.mk [FretPosition.new 4 5, FretPosition.new 4 7, FretPosition.new 4 5] (AlgorithmWeights.position_stable.calculate_score (FingeringPattern.new [FretPosition.new 4 5, FretPosition.new 4 7, FretPosition.new 4 5] "position-stable")) "position-stable") = 0 := by decide
    have h4 : FingeringPattern.string_changes (FingeringPattern.mk [FretPosition.new 4 5, FretPosition.new 4 7, FretPosition.new 4 5] (AlgorithmWeights.position_stable.calculate_score (FingeringPattern.new [FretPosition.new 4 5, FretPosition.new 4 7, FretPosition.new 4 5] "position-stable")) "position-stable") = 0 := by decide
    rw [AlgorithmWeights.calculate_score, h1, h2, h3, h4]
    norm_num [AlgorithmWeights.balanced, AlgorithmWeights.default]
  have eO : AlgorithmWeights.balanced.calculate_score (FingeringPattern.mk [FretPosition.new 3 0, FretPosition.new 3 2, FretPosition.new 3 0] (AlgorithmWeights.open_string.calculate_score (FingeringPattern.new [FretPosition.new 3 0, FretPosition.new 3 2, FretPosition.new 3 0] "open-string")) "open-string") = 2 := by
    have h1 : FingeringPattern.total_movement (FingeringPattern.mk [FretPosition.new 3 0, FretPosition.new 3 2, FretPosition.new 3 0] (AlgorithmWeights.open_string.calculate_score (FingeringPattern.new [FretPosition.new 3 0, FretPosition.new 3 2, FretPosition.new 3 0] "open-string")) "open-string") = 4 := by decide
    have h2 : FingeringPattern.position_changes (FingeringPattern.mk [FretPosition.new 3 0, FretPosition.new 3 2, FretPosition.new 3 0] (AlgorithmWeights.open_string.calculate_score (FingeringPattern.new [FretPosition.new 3 0, FretPosition.new 3 2, FretPosition.new 3 0] "open-string")) "open-string") = 0 := by decide
    have h3 : FingeringPattern.open_string_count (FingeringPattern.mk [FretPosition.new 3 0, FretPosition.new 3 2, FretPosition.new 3 0] (AlgorithmWeights.open_string.calculate_score (FingeringPattern.new [FretPosition.new 3 0, FretPosition.new 3 2, FretPosition.new 3 0] "open-string")) "open-string") = 2 := by decide
    have h4 : FingeringPattern.string_changes (FingeringPattern.mk [FretPosition.new 3 0, FretPosition.new 3 2, FretPosition.new 3 0] (AlgorithmWeights.open_string.calculate_score (FingeringPattern.new [FretPosition.new 3 0, FretPosition.new 3 2, FretPosition.new 3 0] "open-string")) "open-string") = 0 := by decide
    rw [AlgorithmWeights.calculate_score, h1, h2, h3, h4]
    norm_num [AlgorithmWeights.balanced, AlgorithmWeights.default]
  have c1 : AlgorithmWeights.balanced.calculate_score (FingeringPattern.mk [FretPosition.new 3 0, FretPosition.new 3 2, FretPosition.new 3 0] (AlgorithmWeights.open_string.calculate_score (FingeringPattern.new [FretPosition.new 3 0, FretPosition.new 3 2, FretPosition.new 3 0] "open-string")) "open-string") <
      AlgorithmWeights.balanced.calculate_score (FingeringPattern.mk [FretPosition.new 4 5, FretPosition.new 4 7, FretPosition.new 4 5] (AlgorithmWeights.position_stable.calculate_score (FingeringPattern.new [FretPosition.new 4 5, FretPosition.new 4 7, FretPosition.new 4 5] "position-stable")) "position-stable") := by
    rw [eO, eQ]
    norm_num
  have c2 : ¬ AlgorithmWeights.balanced.calculate_score (FingeringPattern.mk [FretPosition.new 3 0, FretPosition.new 3 2, FretPosition.new 3 0] (AlgorithmWeights.open_string.calculate_score (FingeringPattern.new [FretPosition.new 3 0, FretPosition.new 3 2, FretPosition.new 3 0] "open-string")) "open-string") <
      AlgorithmWeights.balanced.calculate_score (FingeringPattern.mk [FretPosition.new 3 0, FretPosition.new 3 2, FretPosition.new 3 0] (AlgorithmWeights.shortest.calculate_score (FingeringPattern.new [FretPosition.new 3 0, FretPosition.new 3 2, FretPosition.new 3 0] "shortest")) "shortest") := by
    rw [eO, eS]
    norm_num
  have hbest := minByScoreFirst_three_eval AlgorithmWeights.balanced
    (FingeringPattern.mk [FretPosition.new 3 0, FretPosition.new 3 2, FretPosition.new 3 0] (AlgorithmWeights.shortest.calculate_score (FingeringPattern.new [FretPosition.new 3 0, FretPosition.new 3 2, FretPosition.new 3 0] "shortest")) "shortest") (FingeringPattern.mk [FretPosition.new 4 5, FretPosition.new 4 7, FretPosition.new 4 5] (AlgorithmWeights.position_stable.calculate_score (FingeringPattern.new [FretPosition.new 4 5, FretPosition.new 4 7, FretPosition.new 4 5] "position-stable")) "position-stable") (FingeringPattern.mk [FretPosition.new 3 0, FretPosition.new 3 2, FretPosition.new 3 0] (AlgorithmWeights.open_string.calculate_score (FingeringPattern.new [FretPosition.new 3 0, FretPosition.new 3 2, FretPosition.new 3 0] "open-string")) "open-string") c1 c2
  have hbal := calculate_balanced_eval 5 [7, 5] (FingeringPattern.mk [FretPosition.new 3 0, FretPosition.new 3 2, FretPosition.new 3 0] (AlgorithmWeights.shortest.calculate_score (FingeringPattern.new [FretPosition.new 3 0, FretPosition.new 3 2, FretPosition.new 3 0] "shortest")) "shortest") (FingeringPattern.mk [FretPosition.new 4 5, FretPosition.new 4 7, FretPosition.new 4 5] (AlgorithmWeights.position_stable.calculate_score (FingeringPattern.new [FretPosition.new 4 5, FretPosition.new 4 7, FretPosition.new 4 5] "position-stable")) "position-stable") (FingeringPattern.mk [FretPosition.new 3 0, FretPosition.new 3 2, FretPosition.new 3 0] (AlgorithmWeights.open_string.calculate_score (FingeringPattern.new [FretPosition.new 3 0, FretPosition.new 3 2, FretPosition.new 3 0] "open-string")) "open-string") (FingeringPattern.mk [FretPosition.new 3 0, FretPosition.new 3 2, FretPosition.new 3 0] (AlgorithmWeights.shortest.calculate_score (FingeringPattern.new [FretPosition.new 3 0, FretPosition.new 3 2, FretPosition.new 3 0] "shortest")) "shortest") hs hq ho hbest
  exact ⟨_, ⟨by decide, hbal⟩, claim_C3 [5, 7, 5] _ (by decide) hbal⟩

/-- Claim C4, counterexample: on the repeated-pitch sequence `[5, 5]` the
string-priority strategy selects the same string (string 3) for the second
pitch even though the different-string candidate (string 4, fret 5) exists:
the same-string candidate with fret distance 0 has key (0, 0), which precedes
every different-string key (0, d) with d at least 1. -/
theorem claim_C4_counterexample :
    ∃ pat, calculate_string_priority [5, 5] = some pat ∧
      pat.positions = [FretPosition.new 3 0, FretPosition.new 3 0] ∧
      FretPosition.new 4 5 ∈ generate_all_positions 5 ∧
      (FretPosition.new 4 5).string ≠ (FretPosition.new 3 0).string :=
  ⟨_, rfl, by decide, by decide, by decide⟩

/-- Claim C4, amended: for every pitch after the first, if some candidate
lies on a different string than the previously selected position, the
strategy selects either a different-string candidate with minimal string
distance from the previous string, or the same-string candidate repeating
the previous fret exactly (fret distance 0, whose key (0,0) precedes every
different-string key); a same-string candidate with a different fret is
selected only when no different-string candidate exists, and when all
candidates are on the previous string the selection stays on that string. -/
theorem claim_C4 (ps : List Nat) (pat : FingeringPattern) (i : Nat)
    (b c : FretPosition) (p : Nat)
    (hpat : calculate_string_priority ps = some pat)
    (hb : pat.positions[i]? = some b)
    (hc : pat.positions[i + 1]? = some c)
    (hp : ps[i + 1]? = some p) :
    ((∃ d ∈ generate_all_positions p, d.string ≠ b.string) →
      (c.string ≠ b.string ∧
        ∀ d ∈ generate_all_positions p, d.string ≠ b.string →
          stringDist b c ≤ stringDist b d) ∨
      (c.string = b.string ∧ c.fret = b.fret)) ∧
    ((∀ d ∈ generate_all_positions p, d.string = b.string) →
      c.string = b.string) := by
  have hmin : minByFirst (stringPriorityNextKey b)
      (generate_all_positions p) = some c := by
    cases ps with
    | nil => simp at hp
    | cons q qs =>
      rw [calculate_string_priority] at hpat
      split at hpat
      · exact absurd hpat (by simp)
      · rename_i first hfirst
        split at hpat
        · exact absurd hpat (by simp)
        · rename_i rest hrest
          have hpos : pat.positions = first :: rest := by
            injection hpat with h2
            rw [← h2]
            rfl
          rw [hpos] at hb hc
          have hc2 : rest[i]? = some c := by simpa using hc
          have hp2 : qs[i]? = some p := by simpa using hp
          exact stringPriorityGo_step qs first rest hrest i p b c hp2 hb hc2
  obtain ⟨hcmem, hminall⟩ := minByFirst_spec _ _ _ hmin
  constructor
  · rintro ⟨d, hd, hds⟩
    by_cases hcs : c.string = b.string
    · right
      refine ⟨hcs, ?_⟩
      have h1 := hminall d hd
      rw [lexLt_eq_false_iff] at h1
      simp [stringPriorityNextKey, hds, hcs] at h1
      have hf0 : fretDist b c = 0 := by omega
      simp only [fretDist] at hf0
      omega
    · left
      refine ⟨hcs, ?_⟩
      intro d2 hd2 hds2
      have h1 := hminall d2 hd2
      rw [lexLt_eq_false_iff] at h1
      simp [stringPriorityNextKey, hds2, hcs] at h1
      omega
  · intro hall
    exact hall c hcmem

/-- Witness for the amended claim C4 at the sequence `[5, 5]`, index 0. -/
theorem claim_C4_witness :
    ∃ pat, (calculate_string_priority [5, 5] = some pat ∧
      pat.positions[0]? = some (FretPosition.new 3 0) ∧
      pat.positions[0 + 1]? = some (FretPosition.new 3 0) ∧
      ([5, 5] : List Nat)[0 + 1]? = some 5) ∧
    (((∃ d ∈ generate_all_positions 5,
        d.string ≠ (FretPosition.new 3 0).string) →
      ((FretPosition.new 3 0).string ≠ (FretPosition.new 3 0).string ∧
        ∀ d ∈ generate_all_positions 5,
          d.string ≠ (FretPosition.new 3 0).string →
            stringDist (FretPosition.new 3 0) (FretPosition.new 3 0) ≤
              stringDist (FretPosition.new 3 0) d) ∨
      ((FretPosition.new 3 0).string = (FretPosition.new 3 0).string ∧
        (FretPosition.new 3 0).fret = (FretPosition.new 3 0).fret)) ∧
    ((∀ d ∈ generate_all_positions 5,
        d.string = (FretPosition.new 3 0).string) →
      (FretPosition.new 3 0).string = (FretPosition.new 3 0).string)) := by
  have hpat : calculate_string_priority [5, 5] = some (FingeringPattern.mk [FretPosition.new 3 0, FretPosition.new 3 0] (AlgorithmWeights.string_priority.calculate_score (FingeringPattern.new [FretPosition.new 3 0, FretPosition.new 3 0] "string-priority")) "string-priority") := rfl
  exact ⟨_, ⟨hpat, by decide, by decide, by decide⟩,
    claim_C4 [5, 5] (FingeringPattern.mk [FretPosition.new 3 0, FretPosition.new 3 0] (AlgorithmWeights.string_priority.calculate_score (FingeringPattern.new [FretPosition.new 3 0, FretPosition.new 3 0] "string-priority")) "string-priority") 0 (FretPosition.new 3 0) (FretPosition.new 3 0) 5
      hpat (by decide) (by decide) (by decide)⟩

/-- Claim C10 (confirmed): for every sequence whose pitches all have
candidates (pitch at most 39), each of the five strategies returns a pattern
with exactly one position per pitch in input order, and every selected
position realizes its pitch: `absolute_pitch` of the i-th position equals the
i-th pitch. -/
theorem claim_C10 (ps : List Nat) (h : ∀ p ∈ ps, p ≤ 39) :
    (∃ pat, calculate_shortest_path ps = some pat ∧
      pat.positions.length = ps.length ∧
      (∀ (i : Nat) (p : Nat) (c : FretPosition), ps[i]? = some p → pat.positions[i]? = some c →
        c.absolute_pitch = p)) ∧
    (∀ base, ∃ pat, calculate_position_stable ps base = some pat ∧
      pat.positions.length = ps.length ∧
      (∀ (i : Nat) (p : Nat) (c : FretPosition), ps[i]? = some p → pat.positions[i]? = some c →
        c.absolute_pitch = p)) ∧
    (∃ pat, calculate_open_string ps = some pat ∧
      pat.positions.length = ps.length ∧
      (∀ (i : Nat) (p : Nat) (c : FretPosition), ps[i]? = some p → pat.positions[i]? = some c →
        c.absolute_pitch = p)) ∧
    (∃ pat, calculate_string_priority ps = some pat ∧
      pat.positions.length = ps.length ∧
      (∀ (i : Nat) (p : Nat) (c : FretPosition), ps[i]? = some p → pat.positions[i]? = some c →
        c.absolute_pitch = p)) ∧
    (∃ pat, calculate_balanced ps = some pat ∧
      pat.positions.length = ps.length ∧
      (∀ (i : Nat) (p : Nat) (c : FretPosition), ps[i]? = some p → pat.positions[i]? = some c →
        c.absolute_pitch = p)) := by
  have key : ∀ (pat : FingeringPattern),
      List.Forall₂ (fun p c => c ∈ generate_all_positions p) ps pat.positions →
      pat.positions.length = ps.length ∧
      (∀ (i : Nat) (p : Nat) (c : FretPosition), ps[i]? = some p → pat.positions[i]? = some c →
        c.absolute_pitch = p) := by
    intro pat hfa
    exact ⟨hfa.length_eq.symm, fun i p c hp hc =>
      absolute_pitch_of_mem (forall₂_index hfa i p c hp hc)⟩
  obtain ⟨p1, e1, f1⟩ := calculate_shortest_path_realizes h
  obtain ⟨p3, e3, f3⟩ := calculate_open_string_realizes h
  obtain ⟨p4, e4, f4⟩ := calculate_string_priority_realizes h
  obtain ⟨p5, e5, f5⟩ := calculate_balanced_realizes h
  refine ⟨⟨p1, e1, key p1 f1⟩, ?_, ⟨p3, e3, key p3 f3⟩,
    ⟨p4, e4, key p4 f4⟩, ⟨p5, e5, key p5 f5⟩⟩
  intro base
  obtain ⟨p2, e2, f2⟩ := calculate_position_stable_realizes base h
  exact ⟨p2, e2, key p2 f2⟩

/-- Witness for claim C10 at the concrete sequence `[0]`. -/
theorem claim_C10_witness :
    (∀ p ∈ ([0] : List Nat), p ≤ 39) ∧
    ((∃ pat, calculate_shortest_path [0] = some pat ∧
      pat.positions.length = ([0] : List Nat).length ∧
      (∀ (i : Nat) (p : Nat) (c : FretPosition), ([0] : List Nat)[i]? = some p → pat.positions[i]? = some c →
        c.absolute_pitch = p)) ∧
    (∀ base, ∃ pat, calculate_position_stable [0] base = some pat ∧
      pat.positions.length = ([0] : List Nat).length ∧
      (∀ (i : Nat) (p : Nat) (c : FretPosition), ([0] : List Nat)[i]? = some p → pat.positions[i]? = some c →
        c.absolute_pitch = p)) ∧
    (∃ pat, calculate_open_string [0] = some pat ∧
      pat.positions.length = ([0] : List Nat).length ∧
      (∀ (i : Nat) (p : Nat) (c : FretPosition), ([0] : List Nat)[i]? = some p → pat.positions[i]? = some c →
        c.absolute_pitch = p)) ∧
    (∃ pat, calculate_string_priority [0] = some pat ∧
      pat.positions.length = ([0] : List Nat).length ∧
      (∀ (i : Nat) (p : Nat) (c : FretPosition), ([0] : List Nat)[i]? = some p → pat.positions[i]? = some c →
        c.absolute_pitch = p)) ∧
    (∃ pat, calculate_balanced [0] = some pat ∧
      pat.positions.length = ([0] : List Nat).length ∧
      (∀ (i : Nat) (p : Nat) (c : FretPosition), ([0] : List Nat)[i]? = some p → pat.positions[i]? = some c →
        c.absolute_pitch = p))) :=
  ⟨by decide, claim_C10 [0] (by decide)⟩

end SidFret
